import Mathlib

/-!
Shallow embedding of the PCA9685 16-channel PWM driver core
(PCA9685.cpp: `PCA9685::getPhaseCycle`, the decode logic of
`PCA9685::getChannelPWM`, `PCA9685::setChannelsPWM`, and the
`PCA9685_ServoEval` angle-to-PWM mapper), together with theorems
settling the spec claims about them.

Machine integers are modelled as `Nat`/`Int` with explicit truncation
(`% 65536`) at the points where the C++ code stores into a `uint16_t`.
The `int_fast16_t` intermediate arithmetic of the linear phase balancer
is modelled as mathematical `Int`, which agrees with the C++ semantics
on every platform where that arithmetic does not overflow (it cannot for
channels in the chip's range).  The servo evaluator's `float` arithmetic
is modelled over `ℚ` (exact real-number semantics of the same formulas).
-/

namespace PCA9685

/-- PCA9685_PWM_FULL: special value for full on/full off LEDx modes. -/
def PCA9685_PWM_FULL : Nat := 0x1000

/-- PCA9685_PWM_MASK: mask for 12-bit/4096 possible phase positions. -/
def PCA9685_PWM_MASK : Nat := 0x0FFF

/-- Number of PWM channels on the chip. -/
def PCA9685_CHANNEL_COUNT : Nat := 16

/-- Sentinel channel value addressing the ALLLED broadcast registers. -/
def PCA9685_ALLLED_CHANNEL : Int := -1

/-- PCA9685_PBLIN_STEPS: step size per channel for linear phase balancing. -/
def PCA9685_PBLIN_STEPS : Nat := PCA9685_PWM_FULL / PCA9685_CHANNEL_COUNT

/-- Start of the LEDx register block: 4 bytes per channel. -/
def PCA9685_LED0_REG : Nat := 0x06

/-- Phase balancing scheme, as in the `PCA9685_PhaseBalancer` C++ enum. -/
inductive PCA9685_PhaseBalancer where
  | None
  | Linear
  | Dynamic
  | Count
  | Undefined
deriving DecidableEq

/-- Truncation of an integer into a `uint16_t` store. -/
def toUInt16 (x : Int) : Nat := (x % 65536).toNat

/-- PCA9685::getPhaseCycle: computes the (phaseBegin, phaseEnd) register
pair for a requested channel / pwmAmount under the configured phase
balancer.  Direct transcription of the C++ source. -/
def getPhaseCycle (balancer : PCA9685_PhaseBalancer) (channel : Int)
    (pwmAmount : Nat) : Nat × Nat :=
  if pwmAmount = 0 then
    -- Full OFF -> time_end[bit12] = 1
    (0, PCA9685_PWM_FULL)
  else if PCA9685_PWM_FULL ≤ pwmAmount then
    -- Full ON -> time_beg[bit12] = 1, time_end ignored
    (PCA9685_PWM_FULL, 0)
  else if channel = PCA9685_ALLLED_CHANNEL then
    -- ALLLED should not receive a phase shifted begin value
    (0, (0 + pwmAmount) &&& PCA9685_PWM_MASK)
  else
    match balancer with
    | .None | .Count | .Undefined =>
        (0, (0 + pwmAmount) &&& PCA9685_PWM_MASK)
    | .Linear =>
        let phaseBegin0 : Nat :=
          toUInt16 (max 0 (channel * (PCA9685_PBLIN_STEPS : Int)
            - ((pwmAmount >>> 1 : Nat) : Int)))
        let phaseEnd : Nat := min (PCA9685_PWM_FULL - 1) (phaseBegin0 + pwmAmount)
        let phaseBegin : Nat := toUInt16 ((phaseEnd : Int) - (pwmAmount : Int))
        (phaseBegin, phaseEnd)
    | .Dynamic =>
        (0, (0 + pwmAmount) &&& PCA9685_PWM_MASK)

/-- Decode logic at the end of PCA9685::getChannelPWM: maps a read-back
(phaseBegin, phaseEnd) register pair to a duty value.  Direct
transcription of the C++ source (datasheet section 7.3.3). -/
def decodePhaseCycle (phaseBegin phaseEnd : Nat) : Nat :=
  if PCA9685_PWM_FULL ≤ phaseEnd then
    -- Full OFF takes precedence over full ON
    0
  else if PCA9685_PWM_FULL ≤ phaseBegin then
    -- Full ON
    PCA9685_PWM_FULL
  else if phaseBegin ≤ phaseEnd then
    -- start and finish in same cycle
    phaseEnd - phaseBegin
  else
    -- span cycles
    (phaseEnd + PCA9685_PWM_FULL) - phaseBegin

/-- Reference decoder following the spec's words for claim C2: the
"full" flag of a phase value is its 13th bit (bit 12); full-off wins,
then full-on, then the in-cycle span, then the wrapped span. -/
def decodePhaseCycleSpec (phaseBegin phaseEnd : Nat) : Nat :=
  if phaseEnd.testBit 12 then 0
  else if phaseBegin.testBit 12 then PCA9685_PWM_FULL
  else if phaseBegin ≤ phaseEnd then phaseEnd - phaseBegin
  else (phaseEnd + PCA9685_PWM_FULL) - phaseBegin

/-- Helper: on 13-bit register values the full-flag test (bit 12)
coincides with the `≥ 4096` comparison the code performs. -/
theorem testBit12_of_lt (n : Nat) (h : n < 8192) :
    n.testBit 12 = decide (PCA9685_PWM_FULL ≤ n) := by
  rw [Nat.testBit_to_div_mod]
  have h12 : (2 : Nat) ^ 12 = 4096 := by norm_num
  rw [h12, decide_eq_decide]
  unfold PCA9685_PWM_FULL
  omega

/-- Helper: masking with PCA9685_PWM_MASK is reduction mod 4096. -/
theorem and_mask_eq_mod (d : Nat) : d &&& PCA9685_PWM_MASK = d % 4096 := by
  have h := Nat.and_pow_two_sub_one_eq_mod d 12
  norm_num at h
  exact h

/-- C2: `decodePhaseCycle` follows exactly the four-branch reference
definition: full-off (phaseEnd's full flag) wins even when both full
flags are set, then full-on, then the in-cycle span
`phaseEnd - phaseBegin`, else the wrapped span
`(phaseEnd + 4096) - phaseBegin`. -/
theorem decodePhaseCycle_matches_spec (phaseBegin phaseEnd : Nat)
    (hb : phaseBegin < 8192) (he : phaseEnd < 8192) :
    decodePhaseCycle phaseBegin phaseEnd = decodePhaseCycleSpec phaseBegin phaseEnd := by
  unfold decodePhaseCycle decodePhaseCycleSpec
  rw [testBit12_of_lt _ hb, testBit12_of_lt _ he]
  simp only [decide_eq_true_eq]

/-- Witness for C2 at the both-flags-set input (4096, 4096): full-off
wins and both definitions return 0 there. -/
theorem decodePhaseCycle_matches_spec_witness :
    decodePhaseCycle 4096 4096 = decodePhaseCycleSpec 4096 4096 ∧
    decodePhaseCycle 4096 4096 = 0 :=
  ⟨decodePhaseCycle_matches_spec 4096 4096 (by decide) (by decide), by decide⟩

/-- C1: for every channel (named 0..15 or the ALLLED broadcast sentinel)
and every duty value in [1, 4095], encoding under the None policy and
then decoding returns the original duty value. -/
theorem getPhaseCycle_roundTrip_none (c : Int) (d : Nat)
    (hc : c = PCA9685_ALLLED_CHANNEL ∨ (0 ≤ c ∧ c ≤ 15))
    (h1 : 1 ≤ d) (h2 : d ≤ 4095) :
    decodePhaseCycle (getPhaseCycle .None c d).1 (getPhaseCycle .None c d).2 = d := by
  have hd0 : ¬ (d = 0) := by omega
  have hdf : ¬ (PCA9685_PWM_FULL ≤ d) := by unfold PCA9685_PWM_FULL; omega
  have hmask : (0 + d) &&& PCA9685_PWM_MASK = d := by
    rw [and_mask_eq_mod]; omega
  have hpair : getPhaseCycle .None c d = (0, d) := by
    unfold getPhaseCycle
    rw [if_neg hd0, if_neg hdf]
    by_cases hall : c = PCA9685_ALLLED_CHANNEL
    · rw [if_pos hall, hmask]
    · rw [if_neg hall]
      show (0, (0 + d) &&& PCA9685_PWM_MASK) = ((0 : Nat), d)
      rw [hmask]
  rw [hpair]
  unfold decodePhaseCycle PCA9685_PWM_FULL
  split_ifs <;> omega

/-- Witness for C1 at the broadcast sentinel and duty 2048. -/
theorem getPhaseCycle_roundTrip_none_witness :
    decodePhaseCycle (getPhaseCycle .None (-1) 2048).1 (getPhaseCycle .None (-1) 2048).2
      = 2048 :=
  getPhaseCycle_roundTrip_none (-1) 2048 (Or.inl (by decide)) (by decide) (by decide)

/-- C3: for every channel and phase balancer, duty 0 encodes as the
full-off sentinel pair (0, 4096) and any duty ≥ 4096 (up to the 16-bit
limit) encodes as the full-on sentinel pair (4096, 0). -/
theorem getPhaseCycle_sentinels (balancer : PCA9685_PhaseBalancer) (c : Int) (d : Nat)
    (hd : PCA9685_PWM_FULL ≤ d) (hd16 : d < 65536) :
    getPhaseCycle balancer c 0 = (0, PCA9685_PWM_FULL) ∧
    getPhaseCycle balancer c d = (PCA9685_PWM_FULL, 0) := by
  constructor
  · unfold getPhaseCycle
    rw [if_pos rfl]
  · have hd0 : ¬ (d = 0) := by unfold PCA9685_PWM_FULL at hd; omega
    unfold getPhaseCycle
    rw [if_neg hd0, if_pos hd]

/-- Witness for C3 on the Dynamic balancer, channel 3, duty 5000. -/
theorem getPhaseCycle_sentinels_witness :
    getPhaseCycle .Dynamic 3 0 = (0, PCA9685_PWM_FULL) ∧
    getPhaseCycle .Dynamic 3 5000 = (PCA9685_PWM_FULL, 0) :=
  getPhaseCycle_sentinels .Dynamic 3 5000 (by decide) (by decide)

/-- C4: under the Linear balancer, for every named channel in [0, 15]
and duty in [1, 4095], the produced window width
(phaseEnd - phaseBegin) mod 4096 equals the requested duty value,
including the boundary-clamped cases. -/
theorem getPhaseCycle_linear_width (c : Int) (d : Nat)
    (hc0 : 0 ≤ c) (hc15 : c ≤ 15) (h1 : 1 ≤ d) (h2 : d ≤ 4095) :
    (((getPhaseCycle .Linear c d).2 : Int) - ((getPhaseCycle .Linear c d).1 : Int)) % 4096
      = d := by
  have hd0 : ¬ (d = 0) := by omega
  have hdf : ¬ (PCA9685_PWM_FULL ≤ d) := by unfold PCA9685_PWM_FULL; omega
  have hall : ¬ (c = PCA9685_ALLLED_CHANNEL) := by unfold PCA9685_ALLLED_CHANNEL; omega
  unfold getPhaseCycle
  rw [if_neg hd0, if_neg hdf, if_neg hall]
  dsimp only
  unfold toUInt16
  have hsteps : PCA9685_PBLIN_STEPS = 256 := by decide
  have hfull : PCA9685_PWM_FULL = 4096 := by decide
  rw [hsteps, hfull, Nat.shiftRight_eq_div_pow, pow_one]
  omega

/-- Witness for C4 at channel 15, duty 4000 (a boundary-clamped case). -/
theorem getPhaseCycle_linear_width_witness :
    (((getPhaseCycle .Linear 15 4000).2 : Int) - ((getPhaseCycle .Linear 15 4000).1 : Int))
      % 4096 = 4000 :=
  getPhaseCycle_linear_width 15 4000 (by decide) (by decide) (by decide) (by decide)

/-- C10: for every channel, every 16-bit duty value and every balancer,
the produced pair is a valid chip encoding: both components are at most
4096 and at most one of them is the full sentinel 4096. -/
theorem getPhaseCycle_valid_encoding (balancer : PCA9685_PhaseBalancer) (c : Int) (d : Nat)
    (hd : d < 65536) :
    (getPhaseCycle balancer c d).1 ≤ PCA9685_PWM_FULL ∧
    (getPhaseCycle balancer c d).2 ≤ PCA9685_PWM_FULL ∧
    ¬((getPhaseCycle balancer c d).1 = PCA9685_PWM_FULL ∧
      (getPhaseCycle balancer c d).2 = PCA9685_PWM_FULL) := by
  have hmask : (0 + d) &&& PCA9685_PWM_MASK = d % 4096 := by
    rw [Nat.zero_add, and_mask_eq_mod]
  have hfull : PCA9685_PWM_FULL = 4096 := by decide
  have hsteps : PCA9685_PBLIN_STEPS = 256 := by decide
  unfold getPhaseCycle
  split_ifs with h1 h2 h3
  · dsimp only
    rw [hfull]
    omega
  · dsimp only
    rw [hfull]
    omega
  · dsimp only
    rw [hmask, hfull]
    omega
  · cases balancer <;> dsimp only <;>
      first
        | (rw [hmask, hfull]; omega)
        | (unfold toUInt16
           rw [hsteps, hfull, Nat.shiftRight_eq_div_pow, pow_one]
           omega)

/-- Witness for C10 on the Linear balancer, channel 7, duty 2048. -/
theorem getPhaseCycle_valid_encoding_witness :
    (getPhaseCycle .Linear 7 2048).1 ≤ PCA9685_PWM_FULL ∧
    (getPhaseCycle .Linear 7 2048).2 ≤ PCA9685_PWM_FULL ∧
    ¬((getPhaseCycle .Linear 7 2048).1 = PCA9685_PWM_FULL ∧
      (getPhaseCycle .Linear 7 2048).2 = PCA9685_PWM_FULL) :=
  getPhaseCycle_valid_encoding .Linear 7 2048 (by decide)

/-- Arduino lowByte: the least significant byte of a 16-bit value. -/
def lowByte (x : Nat) : Nat := x &&& 0xFF

/-- Arduino highByte: the second byte of a 16-bit value. -/
def highByte (x : Nat) : Nat := (x >>> 8) &&& 0xFF

/-- One i2c write transaction as issued by the driver: the register
address byte sent right after beginTransmission, the data bytes that
follow, and the error code returned by endTransmission.  Each value of
this type is one independently opened and closed bus transaction. -/
structure I2CTxn where
  regAddress : Nat
  data : List Nat
  err : Nat
deriving DecidableEq

/-- Byte sequence PCA9685::writeChannelPWM pushes for one channel
(default register order: phaseBegin low/high then phaseEnd low/high). -/
def writeChannelPWMBytes (phaseBegin phaseEnd : Nat) : List Nat :=
  [lowByte phaseBegin, highByte phaseBegin, lowByte phaseEnd, highByte phaseEnd]

/-- Data bytes of one chunk of PCA9685::setChannelsPWM: `chunk` many
channels starting at `begChannel`, consuming pwm values off the front of
the list (the inner `while (maxChannels-- > 0)` loop). -/
def chunkData (balancer : PCA9685_PhaseBalancer) :
    Nat → List Nat → Nat → List Nat
  | _, _, 0 => []
  | begChannel, pwmAmounts, chunk + 1 =>
    let p := getPhaseCycle balancer (begChannel : Int) (pwmAmounts.headD 0)
    writeChannelPWMBytes p.1 p.2 ++
      chunkData balancer (begChannel + 1) pwmAmounts.tail chunk

/-- Outer while loop of PCA9685::setChannelsPWM (hardware-i2c build).
`errf k` is the error code the transport returns for the k-th
endTransmission of this call; `bufLen` is PCA9685_I2C_BUFFER_LENGTH
(the transport's maximum payload per transaction).  `fuel` bounds the
number of loop iterations; the top-level entry passes enough fuel
whenever `bufLen ≥ 5` (with a smaller buffer the C loop would spin
without progress).  Returns the issued transactions and the final
last-error value. -/
def setChannelsPWMAux (balancer : PCA9685_PhaseBalancer) (errf : Nat → Nat)
    (bufLen : Nat) :
    Nat → Nat → Nat → Nat → List Nat → List I2CTxn × Nat
  | 0, _, _, _, _ => ([], 0)
  | fuel + 1, txnIdx, begChannel, numChannels, pwmAmounts =>
    if numChannels = 0 then ([], 0)
    else
      let maxChannels := min numChannels ((bufLen - 1) / 4)
      let e := errf txnIdx
      let txn : I2CTxn :=
        ⟨PCA9685_LED0_REG + begChannel * 4,
         chunkData balancer begChannel pwmAmounts maxChannels, e⟩
      if e ≠ 0 then ([txn], e)
      else
        let rest := setChannelsPWMAux balancer errf bufLen fuel (txnIdx + 1)
          (begChannel + maxChannels) (numChannels - maxChannels)
          (pwmAmounts.drop maxChannels)
        (txn :: rest.1, rest.2)

/-- PCA9685::setChannelsPWM: validates and clips the channel range, then
writes the channels out in buffer-sized chunks. -/
def setChannelsPWM (balancer : PCA9685_PhaseBalancer) (errf : Nat → Nat) (bufLen : Nat)
    (begChannel numChannels : Int) (pwmAmounts : List Nat) : List I2CTxn × Nat :=
  if begChannel < 0 ∨ 15 < begChannel ∨ numChannels < 0 then ([], 0)
  else
    let n : Int := if 16 < begChannel + numChannels then 16 - begChannel else numChannels
    setChannelsPWMAux balancer errf bufLen n.toNat 0 begChannel.toNat n.toNat pwmAmounts

/-- Helper: one chunk of channel data is exactly 4 bytes per channel. -/
theorem chunkData_length (balancer : PCA9685_PhaseBalancer) :
    ∀ (b : Nat) (pwm : List Nat) (c : Nat),
      (chunkData balancer b pwm c).length = 4 * c := by
  intro b pwm c
  induction c generalizing b pwm with
  | zero => rfl
  | succ c ih =>
    simp only [chunkData, writeChannelPWMBytes, List.length_append, List.length_cons,
      List.length_nil, ih]
    omega

/-- Helper: the first transaction the chunking loop issues, when one
exists, is addressed at the register of the current begin channel. -/
theorem setChannelsPWMAux_head_addr (balancer : PCA9685_PhaseBalancer)
    (errf : Nat → Nat) (bufLen : Nat) :
    ∀ fuel txnIdx b n pwm t,
      (setChannelsPWMAux balancer errf bufLen fuel txnIdx b n pwm).1.head? = some t →
      t.regAddress = PCA9685_LED0_REG + b * 4 := by
  intro fuel txnIdx b n pwm t h
  cases fuel with
  | zero => simp [setChannelsPWMAux] at h
  | succ fuel =>
    simp only [setChannelsPWMAux] at h
    split at h
    · simp at h
    · split at h
      · simp only [List.head?_cons, Option.some.injEq] at h
        rw [← h]
      · simp only [List.head?_cons, Option.some.injEq] at h
        rw [← h]

/-- Helper lemma for C5, by induction on the loop fuel. -/
theorem setChannelsPWMAux_chunked (balancer : PCA9685_PhaseBalancer)
    (errf : Nat → Nat) (bufLen : Nat) :
    ∀ fuel txnIdx b n pwm,
      (∀ t ∈ (setChannelsPWMAux balancer errf bufLen fuel txnIdx b n pwm).1,
          t.data.length ≤ 4 * ((bufLen - 1) / 4) ∧ t.data.length % 4 = 0) ∧
      (setChannelsPWMAux balancer errf bufLen fuel txnIdx b n pwm).1.Chain'
        (fun t u => u.regAddress = t.regAddress + t.data.length) := by
  intro fuel
  induction fuel with
  | zero =>
    intro txnIdx b n pwm
    constructor
    · intro t ht
      simp [setChannelsPWMAux] at ht
    · simp [setChannelsPWMAux]
  | succ fuel ih =>
    intro txnIdx b n pwm
    by_cases hn : n = 0
    · constructor
      · intro t ht
        simp [setChannelsPWMAux, hn] at ht
      · simp [setChannelsPWMAux, hn]
    · by_cases he : errf txnIdx ≠ 0
      · have hres : (setChannelsPWMAux balancer errf bufLen (fuel + 1) txnIdx b n pwm).1
            = [⟨PCA9685_LED0_REG + b * 4,
                chunkData balancer b pwm (min n ((bufLen - 1) / 4)), errf txnIdx⟩] := by
          simp only [setChannelsPWMAux]
          rw [if_neg hn, if_pos he]
        rw [hres]
        constructor
        · intro t ht
          simp only [List.mem_singleton] at ht
          subst ht
          simp only [chunkData_length]
          omega
        · simp
      · have hres : (setChannelsPWMAux balancer errf bufLen (fuel + 1) txnIdx b n pwm).1
            = ⟨PCA9685_LED0_REG + b * 4,
                chunkData balancer b pwm (min n ((bufLen - 1) / 4)), errf txnIdx⟩ ::
              (setChannelsPWMAux balancer errf bufLen fuel (txnIdx + 1)
                (b + min n ((bufLen - 1) / 4)) (n - min n ((bufLen - 1) / 4))
                (pwm.drop (min n ((bufLen - 1) / 4)))).1 := by
          simp only [setChannelsPWMAux]
          rw [if_neg hn, if_neg he]
        rw [hres]
        obtain ⟨ihmem, ihchain⟩ := ih (txnIdx + 1) (b + min n ((bufLen - 1) / 4))
          (n - min n ((bufLen - 1) / 4)) (pwm.drop (min n ((bufLen - 1) / 4)))
        constructor
        · intro t ht
          rcases List.mem_cons.mp ht with h1 | h1
          · subst h1
            simp only [chunkData_length]
            omega
          · exact ihmem t h1
        · rw [List.chain'_cons']
          refine ⟨?_, ihchain⟩
          intro y hy
          have := setChannelsPWMAux_head_addr balancer errf bufLen fuel (txnIdx + 1)
            (b + min n ((bufLen - 1) / 4)) (n - min n ((bufLen - 1) / 4))
            (pwm.drop (min n ((bufLen - 1) / 4))) y hy
          simp only [this, chunkData_length]
          omega

/-- C5: a multi-channel write issues bus transactions each carrying the
register bytes of at most floor((bufLen - 1) / 4) channels (4 bytes per
channel), and consecutive transactions start at successive channel
register addresses (each one where the previous chunk left off). -/
theorem setChannelsPWM_chunked (balancer : PCA9685_PhaseBalancer)
    (errf : Nat → Nat) (bufLen : Nat) (begChannel numChannels : Int)
    (pwmAmounts : List Nat) (hbuf : 5 ≤ bufLen) :
    (∀ t ∈ (setChannelsPWM balancer errf bufLen begChannel numChannels pwmAmounts).1,
        t.data.length ≤ 4 * ((bufLen - 1) / 4) ∧ t.data.length % 4 = 0) ∧
    (setChannelsPWM balancer errf bufLen begChannel numChannels pwmAmounts).1.Chain'
      (fun t u => u.regAddress = t.regAddress + t.data.length) := by
  unfold setChannelsPWM
  split_ifs with h h2
  · constructor
    · intro t ht
      simp at ht
    · simp
  · exact setChannelsPWMAux_chunked balancer errf bufLen _ _ _ _ _
  · exact setChannelsPWMAux_chunked balancer errf bufLen _ _ _ _ _

/-- Witness for C5 at a 32-byte transport buffer (7 channels per
transaction), writing 10 channels from channel 2. -/
theorem setChannelsPWM_chunked_witness :
    (∀ t ∈ (setChannelsPWM .None (fun _ => 0) 32 2 10 (List.replicate 10 1000)).1,
        t.data.length ≤ 4 * ((32 - 1) / 4) ∧ t.data.length % 4 = 0) ∧
    (setChannelsPWM .None (fun _ => 0) 32 2 10 (List.replicate 10 1000)).1.Chain'
      (fun t u => u.regAddress = t.regAddress + t.data.length) :=
  setChannelsPWM_chunked .None (fun _ => 0) 32 2 10 (List.replicate 10 1000) (by decide)

/-- Helper lemma for C6: in the chunking loop, every transaction except
possibly the last closed without error, and the loop's final last-error
value is the error of the last transaction (or the error-free default
when no transaction was issued). -/
theorem setChannelsPWMAux_failFast (balancer : PCA9685_PhaseBalancer)
    (errf : Nat → Nat) (bufLen : Nat) :
    ∀ fuel txnIdx b n pwm,
      (∀ t ∈ (setChannelsPWMAux balancer errf bufLen fuel txnIdx b n pwm).1.dropLast,
          t.err = 0) ∧
      (∀ d : I2CTxn, d.err = 0 →
        ((setChannelsPWMAux balancer errf bufLen fuel txnIdx b n pwm).1.getLastD d).err
          = (setChannelsPWMAux balancer errf bufLen fuel txnIdx b n pwm).2) := by
  intro fuel
  induction fuel with
  | zero =>
    intro txnIdx b n pwm
    constructor
    · intro t ht
      simp [setChannelsPWMAux] at ht
    · intro d hd
      simpa [setChannelsPWMAux] using hd
  | succ fuel ih =>
    intro txnIdx b n pwm
    by_cases hn : n = 0
    · constructor
      · intro t ht
        simp [setChannelsPWMAux, hn] at ht
      · intro d hd
        simpa [setChannelsPWMAux, hn] using hd
    · by_cases he : errf txnIdx ≠ 0
      · have hres : setChannelsPWMAux balancer errf bufLen (fuel + 1) txnIdx b n pwm
            = ([⟨PCA9685_LED0_REG + b * 4,
                chunkData balancer b pwm (min n ((bufLen - 1) / 4)), errf txnIdx⟩],
               errf txnIdx) := by
          simp only [setChannelsPWMAux]
          rw [if_neg hn, if_pos he]
        rw [hres]
        constructor
        · intro t ht
          simp [List.dropLast] at ht
        · intro d hd
          simp [List.getLastD]
      · have hres : setChannelsPWMAux balancer errf bufLen (fuel + 1) txnIdx b n pwm
            = (⟨PCA9685_LED0_REG + b * 4,
                chunkData balancer b pwm (min n ((bufLen - 1) / 4)), errf txnIdx⟩ ::
               (setChannelsPWMAux balancer errf bufLen fuel (txnIdx + 1)
                 (b + min n ((bufLen - 1) / 4)) (n - min n ((bufLen - 1) / 4))
                 (pwm.drop (min n ((bufLen - 1) / 4)))).1,
               (setChannelsPWMAux balancer errf bufLen fuel (txnIdx + 1)
                 (b + min n ((bufLen - 1) / 4)) (n - min n ((bufLen - 1) / 4))
                 (pwm.drop (min n ((bufLen - 1) / 4)))).2) := by
          simp only [setChannelsPWMAux]
          rw [if_neg hn, if_neg he]
        have he0 : errf txnIdx = 0 := by omega
        rw [hres]
        obtain ⟨ihdrop, ihlast⟩ := ih (txnIdx + 1) (b + min n ((bufLen - 1) / 4))
          (n - min n ((bufLen - 1) / 4)) (pwm.drop (min n ((bufLen - 1) / 4)))
        constructor
        · intro t ht
          cases hrest : (setChannelsPWMAux balancer errf bufLen fuel (txnIdx + 1)
              (b + min n ((bufLen - 1) / 4)) (n - min n ((bufLen - 1) / 4))
              (pwm.drop (min n ((bufLen - 1) / 4)))).1 with
          | nil =>
            rw [hrest] at ht
            simp [List.dropLast] at ht
          | cons r rs =>
            rw [hrest] at ht
            rw [List.dropLast_cons₂] at ht
            rcases List.mem_cons.mp ht with h1 | h1
            · subst h1
              exact he0
            · apply ihdrop
              rw [hrest]
              exact h1
        · intro d hd
          simp only [List.getLastD_cons]
          exact ihlast _ he0

/-- C6: if any chunk's transaction in setChannelsPWM closes with a
non-zero transport error, the call stops: every transaction except the
last closed with error 0 (no further transactions are issued after a
failure), the final last-error value is the closing error of the last
transaction issued, and the transactions already issued are retained
as-is (no compensating writes appear in the list). -/
theorem setChannelsPWM_failFast (balancer : PCA9685_PhaseBalancer)
    (errf : Nat → Nat) (bufLen : Nat) (begChannel numChannels : Int)
    (pwmAmounts : List Nat) (hbuf : 5 ≤ bufLen) :
    (∀ t ∈ (setChannelsPWM balancer errf bufLen begChannel numChannels pwmAmounts).1.dropLast,
        t.err = 0) ∧
    ((setChannelsPWM balancer errf bufLen begChannel numChannels pwmAmounts).1.getLastD
        ⟨0, [], 0⟩).err
      = (setChannelsPWM balancer errf bufLen begChannel numChannels pwmAmounts).2 := by
  unfold setChannelsPWM
  split_ifs with h h2
  · constructor
    · intro t ht
      simp at ht
    · simp [List.getLastD]
  · obtain ⟨h1, h2⟩ := setChannelsPWMAux_failFast balancer errf bufLen _ 0
      begChannel.toNat _ pwmAmounts
    exact ⟨h1, h2 ⟨0, [], 0⟩ rfl⟩
  · obtain ⟨h1, h2⟩ := setChannelsPWMAux_failFast balancer errf bufLen _ 0
      begChannel.toNat _ pwmAmounts
    exact ⟨h1, h2 ⟨0, [], 0⟩ rfl⟩

/-- Witness for C6: the transport fails (NACK, code 2) on the first of
two needed transactions; only that transaction appears. -/
theorem setChannelsPWM_failFast_witness :
    (∀ t ∈ (setChannelsPWM .None (fun k => if k = 0 then 2 else 0) 32 0 10
        (List.replicate 10 1000)).1.dropLast, t.err = 0) ∧
    ((setChannelsPWM .None (fun k => if k = 0 then 2 else 0) 32 0 10
        (List.replicate 10 1000)).1.getLastD ⟨0, [], 0⟩).err
      = (setChannelsPWM .None (fun k => if k = 0 then 2 else 0) 32 0 10
        (List.replicate 10 1000)).2 :=
  setChannelsPWM_failFast .None (fun k => if k = 0 then 2 else 0) 32 0 10
    (List.replicate 10 1000) (by decide)

/-- Helper lemma for C7: with an error-free transport and a usable
buffer, the loop writes exactly 4 register bytes for every channel of
the (already clipped) request. -/
theorem setChannelsPWMAux_total (balancer : PCA9685_PhaseBalancer)
    (errf : Nat → Nat) (bufLen : Nat)
    (herr : ∀ k, errf k = 0) (hcap : 1 ≤ (bufLen - 1) / 4) :
    ∀ fuel n txnIdx b pwm, n ≤ fuel →
      (((setChannelsPWMAux balancer errf bufLen fuel txnIdx b n pwm).1.map
          (fun t => t.data.length)).sum) = 4 * n := by
  intro fuel
  induction fuel with
  | zero =>
    intro n txnIdx b pwm hn
    have : n = 0 := by omega
    simp [setChannelsPWMAux, this]
  | succ fuel ih =>
    intro n txnIdx b pwm hn
    by_cases hn0 : n = 0
    · simp [setChannelsPWMAux, hn0]
    · have he : ¬ (errf txnIdx ≠ 0) := by
        rw [herr txnIdx]
        omega
      have hres : setChannelsPWMAux balancer errf bufLen (fuel + 1) txnIdx b n pwm
          = (⟨PCA9685_LED0_REG + b * 4,
              chunkData balancer b pwm (min n ((bufLen - 1) / 4)), errf txnIdx⟩ ::
             (setChannelsPWMAux balancer errf bufLen fuel (txnIdx + 1)
               (b + min n ((bufLen - 1) / 4)) (n - min n ((bufLen - 1) / 4))
               (pwm.drop (min n ((bufLen - 1) / 4)))).1,
             (setChannelsPWMAux balancer errf bufLen fuel (txnIdx + 1)
               (b + min n ((bufLen - 1) / 4)) (n - min n ((bufLen - 1) / 4))
               (pwm.drop (min n ((bufLen - 1) / 4)))).2) := by
        simp only [setChannelsPWMAux]
        rw [if_neg hn0, if_neg he]
      rw [hres]
      simp only [List.map_cons, List.sum_cons, chunkData_length]
      rw [ih (n - min n ((bufLen - 1) / 4)) (txnIdx + 1) (b + min n ((bufLen - 1) / 4))
        (pwm.drop (min n ((bufLen - 1) / 4))) (by omega)]
      omega

/-- C7: setChannelsPWM clips the channel count so that
begChannel + numChannels ≤ 16 — with an error-free transport it writes
exactly 4 bytes per clipped channel (so (0, 20) writes 16 channels and
(10, 10) writes 6) — and an invalid begin channel or a non-positive
(post-clip) count is a no-op issuing no transactions. -/
theorem setChannelsPWM_clips (balancer : PCA9685_PhaseBalancer)
    (errf : Nat → Nat) (bufLen : Nat) (begChannel numChannels : Int)
    (pwmAmounts : List Nat) (hbuf : 5 ≤ bufLen) (herr : ∀ k, errf k = 0) :
    ((0 ≤ begChannel ∧ begChannel ≤ 15 ∧ 0 ≤ numChannels) →
      (((setChannelsPWM balancer errf bufLen begChannel numChannels pwmAmounts).1.map
          (fun t => t.data.length)).sum)
        = 4 * (min numChannels (16 - begChannel)).toNat) ∧
    ((begChannel < 0 ∨ 15 < begChannel ∨ numChannels ≤ 0) →
      (setChannelsPWM balancer errf bufLen begChannel numChannels pwmAmounts).1 = []) := by
  have hcap : 1 ≤ (bufLen - 1) / 4 := by omega
  constructor
  · intro ⟨hb0, hb15, hn0⟩
    unfold setChannelsPWM
    have hvalid : ¬ (begChannel < 0 ∨ 15 < begChannel ∨ numChannels < 0) := by omega
    rw [if_neg hvalid]
    split_ifs with hclip
    · rw [setChannelsPWMAux_total balancer errf bufLen herr hcap _ _ _ _ _ (le_refl _)]
      congr 1
      omega
    · rw [setChannelsPWMAux_total balancer errf bufLen herr hcap _ _ _ _ _ (le_refl _)]
      congr 1
      omega
  · intro hbad
    unfold setChannelsPWM
    split_ifs with hvalid hclip
    · rfl
    · exact absurd hclip (by omega)
    · have hnz : numChannels.toNat = 0 := by omega
      show (setChannelsPWMAux balancer errf bufLen numChannels.toNat 0
        begChannel.toNat numChannels.toNat pwmAmounts).1 = []
      rw [hnz]
      rfl

/-- Witness for C7: writeChannels(10, 10, ·) writes 6 channels'
register bytes (24 bytes) over an error-free transport. -/
theorem setChannelsPWM_clips_witness :
    (((setChannelsPWM .None (fun _ => 0) 32 10 10 (List.replicate 10 2048)).1.map
        (fun t => t.data.length)).sum)
      = 4 * (min (10 : Int) (16 - 10)).toNat :=
  (setChannelsPWM_clips .None (fun _ => 0) 32 10 10 (List.replicate 10 2048)
    (by decide) (fun _ => rfl)).1 ⟨by decide, by decide, by decide⟩

/-- Abstract transport behaviour for one channel read-back: the error
code the address-write transaction closes with, the byte count that
requestFrom reports, and the bytes available to read. -/
structure ChannelReadEnv where
  endErr : Nat
  bytesRead : Nat
  data : List Nat

/-- Result of one PCA9685::getChannelPWM call: the returned duty value,
the resulting last-error field, and how many bytes were read (drained)
off the transport. -/
structure ChannelReadResult where
  retVal : Nat
  lastError : Nat
  bytesDrained : Nat
deriving DecidableEq

/-- PCA9685::getChannelPWM against the abstract transport: writes the
channel's register address, requests 4 bytes back, and decodes them;
`lastError0` is the device's last-error field before the call. -/
def getChannelPWM (env : ChannelReadEnv) (isProxyAddresser : Bool)
    (lastError0 : Nat) (channel : Int) : ChannelReadResult :=
  if channel < 0 ∨ 15 < channel ∨ isProxyAddresser then
    ⟨0, lastError0, 0⟩
  else if env.endErr ≠ 0 then
    ⟨0, env.endErr, 0⟩
  else if env.bytesRead ≠ 4 then
    -- drain whatever arrived, synthesize the size-mismatch error code
    ⟨0, 4, env.bytesRead⟩
  else
    let phaseBegin := (env.data.getD 0 0 &&& 0xFF) ||| ((env.data.getD 1 0 &&& 0xFF) <<< 8)
    let phaseEnd := (env.data.getD 2 0 &&& 0xFF) ||| ((env.data.getD 3 0 &&& 0xFF) <<< 8)
    ⟨decodePhaseCycle phaseBegin phaseEnd, 0, 4⟩

/-- C8: when the read-back does not return exactly 4 bytes, the call
drains exactly the bytes that arrived, sets the last-error field to the
fixed size-mismatch code 4, and returns duty value 0. -/
theorem getChannelPWM_sizeMismatch (env : ChannelReadEnv) (lastError0 : Nat)
    (channel : Int) (hc0 : 0 ≤ channel) (hc15 : channel ≤ 15)
    (hend : env.endErr = 0) (hbr : env.bytesRead ≠ 4) :
    getChannelPWM env false lastError0 channel = ⟨0, 4, env.bytesRead⟩ := by
  unfold getChannelPWM
  rw [if_neg (by simp; omega), if_neg (by simp [hend]), if_pos hbr]

/-- Witness for C8: only 3 of 4 bytes arrive on channel 0; the call
drains 3 bytes, reports error 4 and returns duty 0. -/
theorem getChannelPWM_sizeMismatch_witness :
    getChannelPWM ⟨0, 3, [1, 2, 3]⟩ false 0 0 = ⟨0, 4, 3⟩ :=
  getChannelPWM_sizeMismatch ⟨0, 3, [1, 2, 3]⟩ 0 0 (by decide) (by decide) rfl (by decide)

/-- State of a PCA9685_ServoEval instance, its float arithmetic
modelled over ℚ: the coefficient array and the curve-type flag. -/
structure PCA9685_ServoEval where
  coeff : List ℚ
  isCSpline : Bool

/-- Three-point PCA9685_ServoEval constructor: clamps the calibration
points, then fits either the 2-coefficient linear model (equally spaced
points) or the natural cubic spline through the knots at 0°, 90°, 180°,
with the construction loops of the source unrolled at n = 3. -/
def servoEval3 (minPWMAmount midPWMAmount maxPWMAmount : Nat) : PCA9685_ServoEval :=
  let minP := min (max minPWMAmount 0) PCA9685_PWM_FULL
  let midP := min (max midPWMAmount minP) PCA9685_PWM_FULL
  let maxP := min (max maxPWMAmount midP) PCA9685_PWM_FULL
  if maxP - midP ≠ midP - minP then
    let y0 : ℚ := minP
    let y1 : ℚ := midP
    let y2 : ℚ := maxP
    -- x = {0, 90, 180}, so h0 = h1 = 90, u0 = z0 = 0, c2 = 0
    let l0 : ℚ := 2 * (180 - 0) - 90 * 0
    let u1 : ℚ := 90 / l0
    let a0 : ℚ := (3 / 90) * (y2 - y1) - (3 / 90) * (y1 - y0)
    let z1 : ℚ := (a0 - 90 * 0) / l0
    let c1 : ℚ := z1 - u1 * 0
    let b1 : ℚ := (y2 - y1) / 90 - (90 * (0 + 2 * c1)) / 3
    let d1 : ℚ := (0 - c1) / (3 * 90)
    let c0 : ℚ := 0 - 0 * c1
    let b0 : ℚ := (y1 - y0) / 90 - (90 * (c1 + 2 * c0)) / 3
    let d0 : ℚ := (c1 - c0) / (3 * 90)
    ⟨[y0, b0, c0, d0, y1, b1, c1, d1], true⟩
  else
    ⟨[(minP : ℚ), ((maxP - minP : Nat) : ℚ) / 180], false⟩

/-- Round half away from zero, as roundf does. -/
def roundQ (x : ℚ) : Int :=
  if 0 ≤ x then Rat.floor (x + 1 / 2) else -(Rat.floor (-x + 1 / 2))

/-- PCA9685_ServoEval::pwmForAngle over the ℚ model: shift the input by
+90, clamp to [0, 180], evaluate the selected model, round, clamp to
[0, 4096]. -/
def pwmForAngle (s : PCA9685_ServoEval) (angle : ℚ) : Nat :=
  let a := min (max (angle + 90) 0) 180
  let retVal : ℚ :=
    if s.isCSpline = false then
      s.coeff.getD 0 0 + s.coeff.getD 1 0 * a
    else if a ≤ 90 then
      s.coeff.getD 0 0 + s.coeff.getD 1 0 * a + s.coeff.getD 2 0 * a * a
        + s.coeff.getD 3 0 * a * a * a
    else
      let b := a - 90
      s.coeff.getD 4 0 + s.coeff.getD 5 0 * b + s.coeff.getD 6 0 * b * b
        + s.coeff.getD 7 0 * b * b * b
  (min (max (roundQ retVal) 0) ((PCA9685_PWM_FULL : Nat) : Int)).toNat

/-- Helper: Rat.floor is the floor of ℚ's FloorRing instance. -/
theorem ratFloor_eq_floor (q : ℚ) : Rat.floor q = ⌊q⌋ := rfl

/-- Helper: rounding an exact natural value returns it. -/
theorem roundQ_natCast (n : Nat) : roundQ ((n : ℚ)) = (n : Int) := by
  unfold roundQ
  rw [if_pos (by positivity)]
  rw [ratFloor_eq_floor, add_comm, Int.floor_add_nat]
  have h0 : ⌊(1 / 2 : ℚ)⌋ = 0 := by
    rw [Int.floor_eq_zero_iff, Set.mem_Ico]
    norm_num
  rw [h0, zero_add]

/-- Helper: evaluate roundQ at a value shown equal to a natural. -/
theorem roundQ_eq_natCast (q : ℚ) (n : Nat) (h : q = (n : ℚ)) : roundQ q = (n : Int) := by
  rw [h, roundQ_natCast]

/-- Helper: the equally spaced calibration (102, 307, 512) selects the
linear model with intercept 102 and slope 410/180. -/
theorem servoEval3_linear_sel :
    servoEval3 102 307 512 = ⟨[(102 : ℚ), 410 / 180], false⟩ := by
  unfold servoEval3 PCA9685_PWM_FULL
  norm_num

/-- Helper: the non-collinear calibration (102, 300, 512) selects the
cubic-spline model; these are the two segments' coefficients. -/
theorem servoEval3_spline_sel :
    servoEval3 102 300 512 =
      ⟨[(102 : ℚ), 389 / 180, 0, 7 / 1458000, 300, 41 / 18, 7 / 5400, -(7 / 1458000)],
        true⟩ := by
  unfold servoEval3 PCA9685_PWM_FULL
  norm_num

/-- Counterexample to C9: the claim ignores the +90 input shift of
pwmForAngle (its public domain is [-90°, +90°]).  For the linear mapper
built from (102, 307, 512) the call pwmForAngle(0) lands at the middle
of the curve and returns 307, not 102. -/
theorem pwmForAngle_at_zero_counterexample :
    pwmForAngle (servoEval3 102 307 512) 0 = 307 ∧
    pwmForAngle (servoEval3 102 307 512) 0 ≠ 102 := by
  have h : pwmForAngle (servoEval3 102 307 512) 0 = 307 := by
    rw [servoEval3_linear_sel]
    unfold pwmForAngle
    dsimp only [List.getD_cons_zero, List.getD_cons_succ]
    rw [if_pos rfl]
    have ha : min (max ((0 : ℚ) + 90) 0) 180 = 90 := by
      rw [max_def, min_def]
      norm_num
    rw [ha, roundQ_eq_natCast _ 307 (by norm_num)]
    decide
  exact ⟨h, by rw [h]; decide⟩

/-- C9 (amended): calibration (102, 307, 512) is equally spaced, so the
Linear model is selected, and since pwmForAngle shifts its input by +90
(public domain [-90°, +90°]), pwmForAngle(-90) = 102 and
pwmForAngle(90) = 512; calibration (102, 300, 512) is non-collinear, so
the cubic-spline model is selected and it passes through the middle
calibration point: pwmForAngle(0) = 300 exactly. -/
theorem servoEval3_models :
    (servoEval3 102 307 512).isCSpline = false ∧
    pwmForAngle (servoEval3 102 307 512) (-90) = 102 ∧
    pwmForAngle (servoEval3 102 307 512) 90 = 512 ∧
    (servoEval3 102 300 512).isCSpline = true ∧
    pwmForAngle (servoEval3 102 300 512) 0 = 300 := by
  refine ⟨by rw [servoEval3_linear_sel], ?_, ?_, by rw [servoEval3_spline_sel], ?_⟩
  · rw [servoEval3_linear_sel]
    unfold pwmForAngle
    dsimp only [List.getD_cons_zero, List.getD_cons_succ]
    rw [if_pos rfl]
    have ha : min (max ((-90 : ℚ) + 90) 0) 180 = 0 := by
      rw [max_def, min_def]
      norm_num
    rw [ha, roundQ_eq_natCast _ 102 (by norm_num)]
    decide
  · rw [servoEval3_linear_sel]
    unfold pwmForAngle
    dsimp only [List.getD_cons_zero, List.getD_cons_succ]
    rw [if_pos rfl]
    have ha : min (max ((90 : ℚ) + 90) 0) 180 = 180 := by
      rw [max_def, min_def]
      norm_num
    rw [ha, roundQ_eq_natCast _ 512 (by norm_num)]
    decide
  · rw [servoEval3_spline_sel]
    unfold pwmForAngle
    dsimp only [List.getD_cons_zero, List.getD_cons_succ]
    rw [if_neg (by decide)]
    have ha : min (max ((0 : ℚ) + 90) 0) 180 = 90 := by
      rw [max_def, min_def]
      norm_num
    rw [ha, if_pos (by norm_num : (90 : ℚ) ≤ 90)]
    rw [roundQ_eq_natCast _ 300 (by norm_num)]
    decide

end PCA9685
